import Mathlib

/-!
Shallow embedding of `csvjoin.py` (the N-way CSV join engine of the
`csvset` repository) and proofs about it.

Conventions of the embedding:
* a table is a `List (List String)` (rows of cell strings); the list of
  input tables is a `List (List (List String))`;
* Python exceptions are modelled by the `PyErr` error type carried in
  `Except` / result pairs (`valueError` for `ValueError`, `indexError`
  for `IndexError`, `unknownColumn` for the re-raised
  `Exception('error: unknown column name ...')`, `assertionError` for
  failed `assert` statements, `evalError` for failures inside `eval`);
* Python list indexing that is in bounds in every execution the claims
  touch is rendered with `List.getD`; executions in which Python would
  raise an out-of-bounds `IndexError` inside the matcher loop (a join
  column index past the end of a row, or a join field list shorter than
  the table list) are outside the scope of the theorems below, which
  carry the corresponding in-bounds hypotheses;
* Python negative indexing and `int()`'s tolerance for surrounding
  whitespace are not modelled (no claim exercises them).
-/

/-- Error kinds corresponding to the Python exceptions raised by
`csvjoin.py` (see the module conventions above). -/
inductive PyErr where
  | valueError
  | indexError
  | unknownColumn
  | assertionError
  | evalError
  deriving DecidableEq

instance {ε α : Type} [DecidableEq ε] [DecidableEq α] : DecidableEq (Except ε α) := fun x y =>
  match x, y with
  | .ok a, .ok b =>
    if h : a = b then .isTrue (congrArg Except.ok h)
    else .isFalse (fun hh => h (Except.ok.inj hh))
  | .error a, .error b =>
    if h : a = b then .isTrue (congrArg Except.error h)
    else .isFalse (fun hh => h (Except.error.inj hh))
  | .ok _, .error _ => .isFalse (fun hh => Except.noConfusion hh)
  | .error _, .ok _ => .isFalse (fun hh => Except.noConfusion hh)

/-- Opening-brace character, written via its code point so that the
character never appears literally in the source. -/
def lbrace : Char := Char.ofNat 123

/-- Closing-brace character. -/
def rbrace : Char := Char.ofNat 125

/-- Word characters matched by the `[\w\d_]` part of `COLUMN_NAME_RE`
(ASCII letters, digits and underscore; the Unicode extension of
Python's `\w` is not modelled, no claim uses it). -/
def isWordChar (c : Char) : Bool := c.isAlphanum || c = '_'

/-- Value of a list of decimal digit characters, as Python's `int`
computes it (most significant digit first). -/
def digitsToNat (ds : List Char) : Nat :=
  ds.foldl (fun n c => 10 * n + (c.toNat - 48)) 0

/-- Splitting a character list on a separator character, mirroring
Python's `str.split(sep)`: `"" ↦ [""]`, `"a:b" ↦ ["a", "b"]`,
`"::" ↦ ["", "", ""]`. -/
def splitCharList (sep : Char) : List Char → List (List Char)
  | [] => [[]]
  | c :: cs =>
    let r := splitCharList sep cs
    if c = sep then [] :: r
    else
      match r with
      | h :: t => (c :: h) :: t
      | [] => [[c]]

/-- `is_column_name` from `csvjoin.py`: an end-to-end match of the
regular expression `\d+:[\w\d_]+` (one or more digits, a colon, one or
more word characters).  Since neither character class contains a colon,
this is equivalent to splitting on colons and checking both halves. -/
def is_column_name (colname : String) : Bool :=
  match splitCharList ':' colname.data with
  | [a, b] => !a.isEmpty && a.all Char.isDigit && !b.isEmpty && b.all isWordChar
  | _ => false

/-- `parse_column_name` from `csvjoin.py`: split the token on `:`, parse
the file index with `int`, then find the column name in that file's
header with `list.index`.  A failed unpack or `int` or a missing header
name raises `ValueError`; a file index past the end of
`colnames_list` raises `IndexError` (Python's negative indices are not
modelled). -/
def parse_column_name (colname : String) (colnames_list : List (List String)) :
    Except PyErr (Nat × Nat) :=
  match splitCharList ':' colname.data with
  | [istr, field] =>
    if !istr.isEmpty && istr.all Char.isDigit then
      let i := digitsToNat istr
      if i < colnames_list.length then
        match (colnames_list.getD i []).findIdx? (fun s => s = String.mk field) with
        | some j => .ok (i, j)
        | none => .error .valueError
      else .error .indexError
    else .error .valueError
  | _ => .error .valueError

/-! ## The join matcher (`get_match_list`) -/

/-- `no_finished_list` from `csvjoin.py`: every cursor is still inside
its table.  (The Python `functools.reduce` over an empty list would
raise; inside `get_match_list` the list is never empty.) -/
def no_finished_list (ii : List Nat) (lines_list : List (List (List String))) : Bool :=
  (ii.zip lines_list).all (fun p => p.1 < p.2.length)

/-- One inner scan of `get_match_list`: starting at row `j` of table
`t`, find the first row whose join column equals `v`.  The fuel is the
number of remaining rows, so `scanFrom` below always supplies enough. -/
def scanFromAux (t : List (List String)) (field : Nat) (v : String) :
    Nat → Nat → Option Nat
  | 0, _ => none
  | fuel + 1, j =>
    if (t.getD j []).getD field "" = v then some j
    else scanFromAux t field v fuel (j + 1)

/-- The inner `for j in range(ii[i], len(lines_list[i]))` scan of
`get_match_list`. -/
def scanFrom (t : List (List String)) (field : Nat) (v : String) (j : Nat) : Option Nat :=
  scanFromAux t field v (t.length - j) j

/-- The `for i in range(1, len(lines_list))` loop of `get_match_list`:
scan each later table forward from its cursor for the join value `v`;
the first table that fails aborts the candidate (`match_found = False`). -/
def scanTables : List (List (List String)) → List Nat → List Nat → String → Option (List Nat)
  | [], _, _, _ => some []
  | t :: ts, f :: fs, c :: cs, v =>
    match scanFrom t f v c with
    | some j =>
      match scanTables ts fs cs v with
      | some js => some (j :: js)
      | none => none
    | none => none
  | _ :: _, _, _, _ => none

/-- The `while no_finished_list(ii, lines_list)` loop of
`get_match_list`, with table 0 split off from the rest.  Each iteration
advances table 0's cursor by exactly one (on a match, `ii = match` then
`ii = [i+1 for i in ii]`, and `match[0] = ii[0]`), so fuel
`t0.length` is always sufficient and exact. -/
def joinLoopAux (t0 : List (List String)) (ts : List (List (List String)))
    (f0 : Nat) (fs : List Nat) : Nat → Nat → List Nat → List (List Nat)
  | 0, _, _ => []
  | fuel + 1, i0, cs =>
    if no_finished_list (i0 :: cs) (t0 :: ts) then
      match scanTables ts fs cs ((t0.getD i0 []).getD f0 "") with
      | none => joinLoopAux t0 ts f0 fs fuel (i0 + 1) cs
      | some js => (i0 :: js) :: joinLoopAux t0 ts f0 fs fuel (i0 + 1) (js.map (fun j => j + 1))
    else []

/-- `get_match_list` from `csvjoin.py`: all cursors start at zero; the
loop runs while every cursor is inside its table. -/
def get_match_list (lines_list : List (List (List String)))
    (join_field_list : List Nat) : List (List Nat) :=
  match lines_list, join_field_list with
  | t0 :: ts, f0 :: fs => joinLoopAux t0 ts f0 fs t0.length 0 (List.replicate ts.length 0)
  | _, _ => []

/-- Modelled from the spec: the Join Matcher transition loop of §4.2 of
the specification, whose *only* stopping condition is table 0's cursor
reaching the end of table 0 (the transition rule itself is the one of
`joinLoopAux`).  Used to state the refinement claim that
`get_match_list`'s extra stopping condition is unobservable. -/
def specLoopAux (t0 : List (List String)) (ts : List (List (List String)))
    (f0 : Nat) (fs : List Nat) : Nat → Nat → List Nat → List (List Nat)
  | 0, _, _ => []
  | fuel + 1, i0, cs =>
    if i0 < t0.length then
      match scanTables ts fs cs ((t0.getD i0 []).getD f0 "") with
      | none => specLoopAux t0 ts f0 fs fuel (i0 + 1) cs
      | some js => (i0 :: js) :: specLoopAux t0 ts f0 fs fuel (i0 + 1) (js.map (fun j => j + 1))
    else []

/-- Modelled from the spec: the match list produced by running the
transition rule until table 0's cursor reaches the end of its table. -/
def spec_get_match_list (lines_list : List (List (List String)))
    (join_field_list : List Nat) : List (List Nat) :=
  match lines_list, join_field_list with
  | t0 :: ts, f0 :: fs => specLoopAux t0 ts f0 fs t0.length 0 (List.replicate ts.length 0)
  | _, _ => []

/-- The join-column cell referenced by coordinate `i` of a match tuple
`m`: the cell of table `i`, row `m[i]`, at table `i`'s join column. -/
def joinCell (lines_list : List (List (List String))) (join_field_list : List Nat)
    (m : List Nat) (i : Nat) : String :=
  ((lines_list.getD i []).getD (m.getD i 0) []).getD (join_field_list.getD i 0) ""

/-! ## The arithmetic evaluator behind `Expression.run`

`Expression.run` substitutes cell values into the template and calls
Python's built-in `eval` on the resulting text (`csvjoin.py`, line 108).
`eval` itself is not repository code, so, as §4.3 and §9 of the
specification direct, it is modelled here by the restricted arithmetic
grammar of the spec: numeric literals (an integer part with an optional
fractional part), the binary operators for addition, subtraction,
multiplication and true division, unary minus, parentheses, and spaces;
values are exact rationals (§9's "exact numeric semantics"; Python
float rounding, exponentiation and bitwise xor are not modelled).  Any
other character (for instance a letter, which `eval` turns into a
`NameError`) makes evaluation fail with `evalError`, matching the
spec's `EvaluationError`. -/

/-- Tokens of the arithmetic grammar. -/
inductive Tok where
  | num (q : ℚ)
  | plus
  | minus
  | star
  | slash
  | lparen
  | rparen
  deriving DecidableEq

/-- Single-character operator tokens. -/
def charTok (c : Char) : Option Tok :=
  if c = '+' then some .plus
  else if c = '-' then some .minus
  else if c = '*' then some .star
  else if c = '/' then some .slash
  else if c = '(' then some .lparen
  else if c = ')' then some .rparen
  else none

/-- Value of a decimal literal with integer digits `d` and fractional
digits `f`. -/
def litVal (d f : List Char) : ℚ :=
  (digitsToNat d : ℚ) + (digitsToNat f : ℚ) / (10 : ℚ) ^ f.length

/-- A character on which the tokenizer always fails when it reaches it:
not a digit, not a space, not a decimal point, and not an operator or
parenthesis.  A cell value containing such a character (for example any
letter) is non-numeric in the sense of the spec's `EvaluationError`. -/
def badChar (c : Char) : Bool :=
  !c.isDigit && !(c == ' ') && !(c == '.') && (charTok c).isNone

/-- The tokenizer.  Fuel decreases by one per emitted token or skipped
space while each step consumes at least one character, so fuel equal to
the length of the input is always sufficient. -/
def tokenizeAux : Nat → List Char → Except PyErr (List Tok)
  | _, [] => .ok []
  | 0, _ :: _ => .error .evalError
  | fuel + 1, c :: cs =>
    if c = ' ' then tokenizeAux fuel cs
    else if c.isDigit then
      if ((c :: cs).dropWhile Char.isDigit).head? = some '.' then
        match tokenizeAux fuel (((c :: cs).dropWhile Char.isDigit).tail.dropWhile Char.isDigit) with
        | .ok toks =>
          .ok (.num (litVal ((c :: cs).takeWhile Char.isDigit)
            (((c :: cs).dropWhile Char.isDigit).tail.takeWhile Char.isDigit)) :: toks)
        | .error e => .error e
      else
        match tokenizeAux fuel ((c :: cs).dropWhile Char.isDigit) with
        | .ok toks => .ok (.num ((digitsToNat ((c :: cs).takeWhile Char.isDigit) : ℚ)) :: toks)
        | .error e => .error e
    else
      match charTok c with
      | some t =>
        match tokenizeAux fuel cs with
        | .ok toks => .ok (t :: toks)
        | .error e => .error e
      | none => .error .evalError

mutual

/-- Atom: a numeric literal, a parenthesised expression, or unary minus. -/
def parseAtom : Nat → List Tok → Except PyErr (ℚ × List Tok)
  | 0, _ => .error .evalError
  | fuel + 1, ts =>
    match ts with
    | .num q :: rest => .ok (q, rest)
    | .lparen :: rest =>
      match parseExpr fuel rest with
      | .ok (v, .rparen :: rest2) => .ok (v, rest2)
      | .ok (_, _) => .error .evalError
      | .error e => .error e
    | .minus :: rest =>
      match parseAtom fuel rest with
      | .ok (v, rest2) => .ok (-v, rest2)
      | .error e => .error e
    | _ => .error .evalError

/-- Left-associative chain of `*` and `/` applications; division by
zero fails (Python's `ZeroDivisionError`). -/
def parseTermLoop : Nat → ℚ → List Tok → Except PyErr (ℚ × List Tok)
  | 0, _, _ => .error .evalError
  | fuel + 1, acc, ts =>
    match ts with
    | .star :: rest =>
      match parseAtom fuel rest with
      | .ok (v, rest2) => parseTermLoop fuel (acc * v) rest2
      | .error e => .error e
    | .slash :: rest =>
      match parseAtom fuel rest with
      | .ok (v, rest2) =>
        if v = 0 then .error .evalError else parseTermLoop fuel (acc / v) rest2
      | .error e => .error e
    | _ => .ok (acc, ts)

/-- Term: an atom followed by a `*` / `/` chain. -/
def parseTerm : Nat → List Tok → Except PyErr (ℚ × List Tok)
  | 0, _ => .error .evalError
  | fuel + 1, ts =>
    match parseAtom fuel ts with
    | .ok (v, rest) => parseTermLoop fuel v rest
    | .error e => .error e

/-- Left-associative chain of `+` and `-` applications. -/
def parseExprLoop : Nat → ℚ → List Tok → Except PyErr (ℚ × List Tok)
  | 0, _, _ => .error .evalError
  | fuel + 1, acc, ts =>
    match ts with
    | .plus :: rest =>
      match parseTerm fuel rest with
      | .ok (v, rest2) => parseExprLoop fuel (acc + v) rest2
      | .error e => .error e
    | .minus :: rest =>
      match parseTerm fuel rest with
      | .ok (v, rest2) => parseExprLoop fuel (acc - v) rest2
      | .error e => .error e
    | _ => .ok (acc, ts)

/-- Expression: a term followed by a `+` / `-` chain. -/
def parseExpr : Nat → List Tok → Except PyErr (ℚ × List Tok)
  | 0, _ => .error .evalError
  | fuel + 1, ts =>
    match parseTerm fuel ts with
    | .ok (v, rest) => parseExprLoop fuel v rest
    | .error e => .error e

end

/-- String form of an evaluation result (`str(eval(...))`; the exact
rational is rendered by its canonical string form). -/
def ratToString (q : ℚ) : String := toString q

/-- Modelled from the spec: evaluation of the substituted formula text,
standing for the `eval` call of `Expression.run` (see the section
comment above). -/
def evalArith (s : String) : Except PyErr ℚ :=
  match tokenizeAux s.data.length s.data with
  | .error e => .error e
  | .ok ts =>
    match parseExpr (4 * ts.length + 4) ts with
    | .error e => .error e
    | .ok (v, rest) =>
      match rest with
      | [] => .ok v
      | _ :: _ => .error .evalError

/-! ## `Expression` (compilation and evaluation of output columns) -/

/-- A compiled output column: either a pass-through column reference
(`self.expr_ = ''` in the source) or a template with brace slots plus
the parsed references (`self.expr_`, `self.pars_`). -/
inductive Expression where
  | simple (p : Nat × Nat)
  | formula (template : String) (pars : List (Nat × Nat))
  deriving DecidableEq

/-- One attempted match of `COLUMN_NAME_RE` at the current position:
one or more digits, a colon, one or more word characters (both runs
greedy, as in the regex).  Returns the matched text and the rest. -/
def matchColRefAt (cs : List Char) : Option (List Char × List Char) :=
  let d := cs.takeWhile Char.isDigit
  let r1 := cs.dropWhile Char.isDigit
  if d.isEmpty then none
  else
    match r1 with
    | ':' :: r2 =>
      let w := r2.takeWhile isWordChar
      let r3 := r2.dropWhile isWordChar
      if w.isEmpty then none else some (d ++ ':' :: w, r3)
    | _ => none

/-- `re.finditer(COLUMN_NAME_RE, colname)` plus the position fixing of
`Expression.__init__`: left-to-right scan collecting the matched column
references and replacing each by a brace slot.  Fuel: at least one
character is consumed per step. -/
def scanTemplateAux : Nat → List Char → List String × List Char
  | 0, cs => ([], cs)
  | fuel + 1, cs =>
    match cs with
    | [] => ([], [])
    | c :: rest =>
      match matchColRefAt (c :: rest) with
      | some (m, rest2) =>
        let (refs, tmpl) := scanTemplateAux fuel rest2
        (String.mk m :: refs, lbrace :: rbrace :: tmpl)
      | none =>
        let (refs, tmpl) := scanTemplateAux fuel rest
        (refs, c :: tmpl)

/-- `str.format`: substitute the values into the brace slots of the
template, in order.  (Python raises `IndexError` when there are more
slots than values; compiled expressions always have exactly as many
values as slots, so the extra-slot case is left as plain text.) -/
def formatTemplate : List Char → List String → List Char
  | [], _ => []
  | c :: c2 :: cs2, v :: vs2 =>
    if c = lbrace ∧ c2 = rbrace then v.data ++ formatTemplate cs2 vs2
    else c :: formatTemplate (c2 :: cs2) (v :: vs2)
  | c :: cs, vs => c :: formatTemplate cs vs

/-- The `for match in re.finditer(...)` reference-parsing loop of
`Expression.__init__`: parse every matched reference, re-raising a
`ValueError` as the unknown-column `Exception`. -/
def parseRefs : List String → List (List String) → Except PyErr (List (Nat × Nat))
  | [], _ => .ok []
  | r :: rest, colnames_list =>
    match parse_column_name r colnames_list with
    | .ok p =>
      match parseRefs rest colnames_list with
      | .ok ps => .ok (p :: ps)
      | .error e => .error e
    | .error .valueError => .error .unknownColumn
    | .error e => .error e

/-- `Expression.__init__` from `csvjoin.py`: a token matching
`COLUMN_NAME_RE` end-to-end compiles to a pass-through reference;
anything else is scanned for embedded references and becomes a
template.  A `ValueError` from `parse_column_name` is re-raised as the
human-readable unknown-column `Exception`; an `IndexError` propagates
unchanged. -/
def Expression.compile (colname : String) (colnames_list : List (List String)) :
    Except PyErr Expression :=
  if is_column_name colname then
    match parse_column_name colname colnames_list with
    | .ok p => .ok (.simple p)
    | .error .valueError => .error .unknownColumn
    | .error e => .error e
  else
    let (refs, tmpl) := scanTemplateAux colname.data.length colname.data
    match parseRefs refs colnames_list with
    | .ok ps => .ok (.formula (String.mk tmpl) ps)
    | .error e => .error e

/-- `Expression.run` from `csvjoin.py`: a pass-through reference
returns the raw cell; a formula substitutes the referenced cells into
the template and evaluates the result. -/
def Expression.run (e : Expression) (lines : List (List String)) : Except PyErr String :=
  match e with
  | .simple (i, j) => .ok ((lines.getD i []).getD j "")
  | .formula tmpl ps =>
    let vals := ps.map (fun p => (lines.getD p.1 []).getD p.2 "")
    match evalArith (String.mk (formatTemplate tmpl.data vals)) with
    | .ok q => .ok (ratToString q)
    | .error e => .error e

/-! ## `get_field_list`, the output loop and `main` -/

/-- The `for join in join_list` loop of `get_field_list`: parse every
join token, building the `join_columns` dictionary (modelled as an
association list with the latest binding first, so that a lookup finds
the latest one, as for a Python dict). -/
def joinColumnsOf : List String → List (List String) → List (Nat × Nat) →
    Except PyErr (List (Nat × Nat))
  | [], _, acc => .ok acc
  | j :: rest, colnames_list, acc =>
    match parse_column_name j colnames_list with
    | .ok (i, c) => joinColumnsOf rest colnames_list ((i, c) :: acc)
    | .error .valueError => .error .unknownColumn
    | .error e => .error e

/-- The second `assert` of `get_field_list`:
`set(range(numfiles)) == set(join_columns.keys())`. -/
def coverageOk (numfiles : Nat) (jc : List (Nat × Nat)) : Bool :=
  (List.range numfiles).all (fun k => jc.any (fun p => p.1 = k)) &&
    jc.all (fun p => p.1 < numfiles)

/-- Dictionary lookup in the association list (latest binding wins). -/
def lookupJoin (jc : List (Nat × Nat)) (k : Nat) : Nat :=
  match jc.find? (fun p => p.1 = k) with
  | some p => p.2
  | none => 0

/-- `get_field_list` from `csvjoin.py`.  The first `assert` checks one
join entry per input file; the second checks that the keys cover
`{0, …, numfiles-1}`; the result is the join column of each file in
file order (the deco-sort of the dictionary items by key). -/
def get_field_list (numfiles : Nat) (join_list : List String)
    (colnames_list : List (List String)) : Except PyErr (List Nat) :=
  if numfiles = join_list.length then
    match joinColumnsOf join_list colnames_list [] with
    | .ok jc =>
      if coverageOk numfiles jc then
        .ok ((List.range numfiles).map (fun k => lookupJoin jc k))
      else .error .assertionError
    | .error e => .error e
  else .error .assertionError

/-- `','.join(out_cols)`. -/
def joinComma : List String → String
  | [] => ""
  | [s] => s
  | s :: rest => s ++ "," ++ joinComma rest

/-- The `[expr.run(lines) for expr in expr_list]` comprehension: run
every expression on the matched rows, aborting at the first error. -/
def runExprs : List Expression → List (List String) → Except PyErr (List String)
  | [], _ => .ok []
  | e :: rest, lines =>
    match e.run lines with
    | .ok s =>
      match runExprs rest lines with
      | .ok ss => .ok (s :: ss)
      | .error err => .error err
    | .error err => .error err

/-- The output loop of `main`: select the matched row of each table,
evaluate every output column, and write the joined row.  The result is
the list of rows actually written plus the error (if any) that aborted
the run; a row on which an expression fails contributes nothing (the
write happens only after all of its columns evaluated). -/
def run_matches (expr_list : List Expression) (lines_list : List (List (List String))) :
    List (List Nat) → List String × Option PyErr
  | [] => ([], none)
  | row_list :: rest =>
    let lines := List.zipWith (fun i l => l.getD i []) row_list lines_list
    match runExprs expr_list lines with
    | .ok cols =>
      let (out, err) := run_matches expr_list lines_list rest
      (joinComma cols :: out, err)
    | .error e => ([], some e)

/-- The `for colname in options.out_cols` compilation loop of `main`. -/
def compileAll : List String → List (List String) → Except PyErr (List Expression)
  | [], _ => .ok []
  | c :: rest, colnames_list =>
    match Expression.compile c colnames_list with
    | .ok e =>
      match compileAll rest colnames_list with
      | .ok es => .ok (e :: es)
      | .error err => .error err
    | .error err => .error err

/-- `main` from `csvjoin.py`, after the input files have been parsed
into headers and tables: `get_field_list`, then `get_match_list`, then
expression compilation, then the output loop, in that order.  The
result is the written output rows plus the aborting error, if any. -/
def main_model (colnames_list : List (List String))
    (lines_list : List (List (List String)))
    (join_list : List String) (out_cols : List String) :
    List String × Option PyErr :=
  match get_field_list lines_list.length join_list colnames_list with
  | .error e => ([], some e)
  | .ok join_field_list =>
    let match_list := get_match_list lines_list join_field_list
    match compileAll out_cols colnames_list with
    | .error e => ([], some e)
    | .ok expr_list => run_matches expr_list lines_list match_list

/-- A cell text that is a numeric literal of the modelled grammar,
together with its value: either a nonempty run of decimal digits, or
such a run followed by a decimal point and further digits. -/
inductive IsNumLit : List Char → ℚ → Prop where
  | int (d : List Char) (hne : d ≠ []) (hd : ∀ c ∈ d, c.isDigit = true) :
      IsNumLit d ((digitsToNat d : ℚ))
  | dec (d f : List Char) (hne : d ≠ []) (hd : ∀ c ∈ d, c.isDigit = true)
      (hf : ∀ c ∈ f, c.isDigit = true) :
      IsNumLit (d ++ '.' :: f) (litVal d f)

/-! ## Claim theorems -/

/-- C1: for the two-table input with header `city,pop` and rows
`(NYC,8),(LA,4)`, and header `city,area` with rows `(LA,500),(NYC,300)`,
joined on `0:city`/`1:city` with output columns `0:city`, `0:pop`,
`1:area`, the matcher emits exactly the one match tuple `[0, 1]` and
the evaluated output is the single row `NYC,8,300`; the later table-0
row `LA` produces no tuple because table 1's cursor has advanced past
its `LA` row. -/
theorem scenario_a_single_match_row :
    get_match_list [[["NYC","8"],["LA","4"]], [["LA","500"],["NYC","300"]]] [0, 0]
        = [[0, 1]] ∧
      main_model [["city","pop"],["city","area"]]
        [[["NYC","8"],["LA","4"]], [["LA","500"],["NYC","300"]]]
        ["0:city","1:city"] ["0:city","0:pop","1:area"]
        = (["NYC,8,300"], none) := by
  decide

/-- C5 counterexample: an output-column spec whose file index is not an
index into the list of input tables does *not* fail with the
human-readable unknown-column error: `parse_column_name` indexes
`colnames_list[2]`, which raises `IndexError`, and the
`except ValueError` of `Expression.__init__` does not catch it. -/
theorem out_of_range_file_index_counterexample :
    Expression.compile "2:city" [["city","pop"],["city","area"]]
        = .error PyErr.indexError ∧
      PyErr.indexError ≠ PyErr.unknownColumn := by
  decide

/-- C5 amended: with output spec `2:city` and only two input files the
run aborts with an uncaught `IndexError` (not the human-readable
unknown-column error) raised while constructing the `Expression`,
which in `main` happens after matching and before any output row is
written: the output is empty and the error is `indexError`. -/
theorem out_of_range_file_index_behavior :
    main_model [["city","pop"],["city","area"]]
        [[["NYC","8"],["LA","4"]], [["LA","500"],["NYC","300"]]]
        ["0:city","1:city"] ["2:city"]
        = ([], some PyErr.indexError) := by
  decide

/-- C6: if the join spec does not contain exactly one entry per input
file, `main` fails with the cardinality `assert` of `get_field_list`
(the spec's `ConfigurationError`) and writes no output row — the
failure happens whatever the tables contain, before any match tuple or
output row can be produced. -/
theorem join_spec_cardinality_error (colnames_list : List (List String))
    (lines_list : List (List (List String))) (join_list : List String)
    (out_cols : List String) (h : lines_list.length ≠ join_list.length) :
    main_model colnames_list lines_list join_list out_cols
      = ([], some PyErr.assertionError) := by
  simp only [main_model, get_field_list, if_neg h]

/-! ### Matcher lemmas -/

/-- Inversion for the inner scan: a found row is at or after the start
position, inside the table, and its join column holds the value. -/
theorem scanFromAux_some {t : List (List String)} {field : Nat} {v : String} :
    ∀ {fuel j k : Nat}, fuel + j ≤ t.length →
      scanFromAux t field v fuel j = some k →
      j ≤ k ∧ k < t.length ∧ (t.getD k []).getD field "" = v := by
  intro fuel
  induction fuel with
  | zero => intro j k _ h; simp [scanFromAux] at h
  | succ n ih =>
    intro j k hle h
    rw [scanFromAux] at h
    split at h
    · rename_i hcell
      cases h
      exact ⟨Nat.le_refl _, by omega, hcell⟩
    · have h2 := ih (by omega) h
      exact ⟨by omega, h2.2.1, h2.2.2⟩

/-- Inversion for `scanFrom`. -/
theorem scanFrom_some {t : List (List String)} {field : Nat} {v : String} {j k : Nat}
    (h : scanFrom t field v j = some k) :
    j ≤ k ∧ k < t.length ∧ (t.getD k []).getD field "" = v := by
  rcases le_or_lt j t.length with hj | hj
  · exact scanFromAux_some (by omega) h
  · exfalso
    unfold scanFrom at h
    rw [Nat.sub_eq_zero_of_le (by omega)] at h
    simp [scanFromAux] at h

/-- Inversion for the per-table scan loop: a successful candidate has
one row index per later table; each is at or after that table's cursor,
inside the table, and its join column equals the table-0 value. -/
theorem scanTables_some :
    ∀ {ts : List (List (List String))} {fs cs : List Nat} {v : String} {js : List Nat},
      scanTables ts fs cs v = some js →
      js.length = ts.length ∧
        ∀ k, k < ts.length →
          cs.getD k 0 ≤ js.getD k 0 ∧ js.getD k 0 < (ts.getD k []).length ∧
            ((ts.getD k []).getD (js.getD k 0) []).getD (fs.getD k 0) "" = v := by
  intro ts
  induction ts with
  | nil =>
    intro fs cs v js h
    simp only [scanTables] at h
    cases h
    simp
  | cons t ts ih =>
    intro fs cs v js h
    cases fs with
    | nil => simp [scanTables] at h
    | cons f fs =>
      cases cs with
      | nil => simp [scanTables] at h
      | cons c cs =>
        rw [scanTables] at h
        cases hsf : scanFrom t f v c with
        | none => rw [hsf] at h; cases h
        | some j =>
          rw [hsf] at h
          cases hst : scanTables ts fs cs v with
          | none => rw [hst] at h; cases h
          | some js' =>
            rw [hst] at h
            cases h
            have hj := scanFrom_some hsf
            have hrec := ih hst
            constructor
            · simp [hrec.1]
            · intro k hk
              cases k with
              | zero => simpa using hj
              | succ k2 =>
                simp only [List.getD_cons_succ]
                exact hrec.2 k2 (by simpa using hk)

/-- `no_finished_list` on a cons pair. -/
theorem no_finished_cons (c : Nat) (cs : List Nat) (t : List (List String))
    (ts : List (List (List String))) :
    no_finished_list (c :: cs) (t :: ts)
      = (decide (c < t.length) && no_finished_list cs ts) := by
  simp [no_finished_list]

/-- Step equation: the matcher loop stops when some cursor is out of
bounds. -/
theorem joinLoopAux_stop {t0 ts f0 fs fuel i0 cs}
    (hb : no_finished_list (i0 :: cs) (t0 :: ts) = false) :
    joinLoopAux t0 ts f0 fs (fuel + 1) i0 cs = [] := by
  rw [joinLoopAux, hb]
  simp

/-- Step equation: a failed candidate advances only table 0's cursor. -/
theorem joinLoopAux_step_none {t0 ts f0 fs fuel i0 cs}
    (hb : no_finished_list (i0 :: cs) (t0 :: ts) = true)
    (hst : scanTables ts fs cs ((t0.getD i0 []).getD f0 "") = none) :
    joinLoopAux t0 ts f0 fs (fuel + 1) i0 cs
      = joinLoopAux t0 ts f0 fs fuel (i0 + 1) cs := by
  rw [joinLoopAux, hb, if_pos rfl, hst]

/-- Step equation: a successful candidate is emitted and every cursor
jumps to one past its matched row. -/
theorem joinLoopAux_step_some {t0 ts f0 fs fuel i0 cs js}
    (hb : no_finished_list (i0 :: cs) (t0 :: ts) = true)
    (hst : scanTables ts fs cs ((t0.getD i0 []).getD f0 "") = some js) :
    joinLoopAux t0 ts f0 fs (fuel + 1) i0 cs
      = (i0 :: js) :: joinLoopAux t0 ts f0 fs fuel (i0 + 1) (js.map (fun j => j + 1)) := by
  rw [joinLoopAux, hb, if_pos rfl, hst]

/-- Step equation for the spec's loop: stop when table 0 is exhausted. -/
theorem specLoopAux_stop {t0 ts f0 fs fuel i0 cs} (h0 : ¬ i0 < t0.length) :
    specLoopAux t0 ts f0 fs (fuel + 1) i0 cs = [] := by
  rw [specLoopAux, if_neg h0]

/-- Step equation for the spec's loop: failed candidate. -/
theorem specLoopAux_step_none {t0 ts f0 fs fuel i0 cs} (h0 : i0 < t0.length)
    (hst : scanTables ts fs cs ((t0.getD i0 []).getD f0 "") = none) :
    specLoopAux t0 ts f0 fs (fuel + 1) i0 cs
      = specLoopAux t0 ts f0 fs fuel (i0 + 1) cs := by
  rw [specLoopAux, if_pos h0, hst]

/-- Step equation for the spec's loop: successful candidate. -/
theorem specLoopAux_step_some {t0 ts f0 fs fuel i0 cs js} (h0 : i0 < t0.length)
    (hst : scanTables ts fs cs ((t0.getD i0 []).getD f0 "") = some js) :
    specLoopAux t0 ts f0 fs (fuel + 1) i0 cs
      = (i0 :: js) :: specLoopAux t0 ts f0 fs fuel (i0 + 1) (js.map (fun j => j + 1)) := by
  rw [specLoopAux, if_pos h0, hst]

/-- When the counters and tables have the same length, a false
`no_finished_list` exhibits an exhausted cursor. -/
theorem no_finished_false {cs : List Nat} {ts : List (List (List String))}
    (hlen : cs.length = ts.length) (h : no_finished_list cs ts = false) :
    ∃ k, k < ts.length ∧ (ts.getD k []).length ≤ cs.getD k 0 := by
  induction cs generalizing ts with
  | nil =>
    cases ts with
    | nil => simp [no_finished_list] at h
    | cons t ts => simp at hlen
  | cons c cs ih =>
    cases ts with
    | nil => simp at hlen
    | cons t ts =>
      rw [no_finished_cons] at h
      by_cases hc : c < t.length
      · have hrest : no_finished_list cs ts = false := by
          simpa [hc] using h
        obtain ⟨k, hk, hge⟩ := ih (by simpa using hlen) hrest
        exact ⟨k + 1, by simpa using hk, by simpa using hge⟩
      · exact ⟨0, by simp, by simpa using Nat.le_of_not_lt hc⟩

/-- An exhausted later-table cursor makes every further candidate of
the spec's loop fail, so it emits nothing at all. -/
theorem specLoopAux_exhausted (t0 : List (List String)) (ts : List (List (List String)))
    (f0 : Nat) (fs : List Nat) :
    ∀ (fuel i0 : Nat) (cs : List Nat),
      (∃ k, k < ts.length ∧ (ts.getD k []).length ≤ cs.getD k 0) →
      specLoopAux t0 ts f0 fs fuel i0 cs = [] := by
  intro fuel
  induction fuel with
  | zero => intro i0 cs _; rfl
  | succ n ih =>
    intro i0 cs hex
    by_cases h0 : i0 < t0.length
    · cases hst : scanTables ts fs cs ((t0.getD i0 []).getD f0 "") with
      | none => rw [specLoopAux_step_none h0 hst]; exact ih (i0 + 1) cs hex
      | some js =>
        exfalso
        obtain ⟨k, hk, hge⟩ := hex
        have := (scanTables_some hst).2 k hk
        omega
    · exact specLoopAux_stop h0

/-- C2 core: the loop of `get_match_list` (which also stops when a
later table's cursor is exhausted) produces the same match list as the
spec's loop (which stops only when table 0's cursor is exhausted). -/
theorem joinLoopAux_eq_specLoopAux (t0 : List (List String))
    (ts : List (List (List String))) (f0 : Nat) (fs : List Nat) :
    ∀ (fuel i0 : Nat) (cs : List Nat), cs.length = ts.length →
      joinLoopAux t0 ts f0 fs fuel i0 cs = specLoopAux t0 ts f0 fs fuel i0 cs := by
  intro fuel
  induction fuel with
  | zero => intro i0 cs _; rfl
  | succ n ih =>
    intro i0 cs hlen
    by_cases h0 : i0 < t0.length
    · cases hb : no_finished_list cs ts with
      | true =>
        have hcond : no_finished_list (i0 :: cs) (t0 :: ts) = true := by
          rw [no_finished_cons, hb]
          simp [h0]
        cases hst : scanTables ts fs cs ((t0.getD i0 []).getD f0 "") with
        | none =>
          rw [joinLoopAux_step_none hcond hst, specLoopAux_step_none h0 hst]
          exact ih (i0 + 1) cs hlen
        | some js =>
          have hlen' : (js.map (fun j => j + 1)).length = ts.length := by
            rw [List.length_map, (scanTables_some hst).1]
          rw [joinLoopAux_step_some hcond hst, specLoopAux_step_some h0 hst,
            ih (i0 + 1) (js.map (fun j => j + 1)) hlen']
      | false =>
        have hcond : no_finished_list (i0 :: cs) (t0 :: ts) = false := by
          rw [no_finished_cons, hb]
          simp
        rw [joinLoopAux_stop hcond,
          specLoopAux_exhausted t0 ts f0 fs (n + 1) i0 cs (no_finished_false hlen hb)]
    · have hcond : no_finished_list (i0 :: cs) (t0 :: ts) = false := by
        rw [no_finished_cons]
        simp [h0]
      rw [joinLoopAux_stop hcond, specLoopAux_stop h0]

/-- C2: the Join Matcher's transition rule is observably run until the
cursor for table 0 reaches the end of its table: for every list of
input tables (and join field list), `get_match_list` produces the same
match list as the procedure whose only stopping condition is table 0's
cursor reaching the end of table 0. -/
theorem get_match_list_eq_spec (lines_list : List (List (List String)))
    (join_field_list : List Nat) :
    get_match_list lines_list join_field_list
      = spec_get_match_list lines_list join_field_list := by
  unfold get_match_list spec_get_match_list
  cases lines_list with
  | nil => cases join_field_list <;> rfl
  | cons t0 ts =>
    cases join_field_list with
    | nil => rfl
    | cons f0 fs =>
      exact joinLoopAux_eq_specLoopAux t0 ts f0 fs t0.length 0 _
        (List.length_replicate _ _)

/-- Step equation for `get_match_list` on at least one table and one
join field. -/
theorem get_match_list_cons (t0 : List (List String)) (ts : List (List (List String)))
    (f0 : Nat) (fs : List Nat) :
    get_match_list (t0 :: ts) (f0 :: fs)
      = joinLoopAux t0 ts f0 fs t0.length 0 (List.replicate ts.length 0) := rfl

/-- `getD` through the cursor-advancing `map (· + 1)`. -/
theorem getD_map_add_one (js : List Nat) (k : Nat) (hk : k < js.length) :
    (js.map (fun j => j + 1)).getD k 0 = js.getD k 0 + 1 := by
  induction js generalizing k with
  | nil => simp at hk
  | cons a l ih =>
    cases k with
    | zero => simp
    | succ k2 =>
      simp only [List.map_cons, List.getD_cons_succ]
      exact ih k2 (by simpa using hk)

/-- Counting bound for the matcher loop: from cursor state
`(i0, cs)` it emits at most `t0.length - i0` tuples and at most
`(ts[k]).length - cs[k]` tuples for every later table `k`. -/
theorem joinLoopAux_count (t0 : List (List String)) (ts : List (List (List String)))
    (f0 : Nat) (fs : List Nat) :
    ∀ (fuel i0 : Nat) (cs : List Nat),
      (joinLoopAux t0 ts f0 fs fuel i0 cs).length ≤ t0.length - i0 ∧
      ∀ k, k < ts.length →
        (joinLoopAux t0 ts f0 fs fuel i0 cs).length
          ≤ (ts.getD k []).length - cs.getD k 0 := by
  intro fuel
  induction fuel with
  | zero => intro i0 cs; simp [joinLoopAux]
  | succ n ih =>
    intro i0 cs
    cases hb : no_finished_list (i0 :: cs) (t0 :: ts) with
    | false => rw [joinLoopAux_stop hb]; simp
    | true =>
      have h0 : i0 < t0.length := by
        rw [no_finished_cons] at hb
        simp at hb
        exact hb.1
      cases hst : scanTables ts fs cs ((t0.getD i0 []).getD f0 "") with
      | none =>
        rw [joinLoopAux_step_none hb hst]
        have h2 := ih (i0 + 1) cs
        exact ⟨by have := h2.1; omega, fun k hk => h2.2 k hk⟩
      | some js =>
        rw [joinLoopAux_step_some hb hst]
        have hs := scanTables_some hst
        have h2 := ih (i0 + 1) (js.map (fun j => j + 1))
        constructor
        · simp only [List.length_cons]
          have := h2.1
          omega
        · intro k hk
          simp only [List.length_cons]
          have hrec := h2.2 k hk
          have hmap := getD_map_add_one js k (by rw [hs.1]; exact hk)
          rw [hmap] at hrec
          have h3 := (hs.2 k hk).1
          have h4 := (hs.2 k hk).2.1
          omega

/-- C3: for every list of input tables (each with at least one row and
in-bounds join columns), the number of match tuples returned by
`get_match_list` is at most the row count of the smallest input table
(stated as: at most the row count of every input table). -/
theorem match_count_le_smallest (lines_list : List (List (List String)))
    (join_field_list : List Nat)
    (h0 : lines_list ≠ [])
    (h1 : ∀ t ∈ lines_list, t ≠ [])
    (h2 : join_field_list.length = lines_list.length)
    (h3 : ∀ i, i < lines_list.length → ∀ row ∈ lines_list.getD i [],
        join_field_list.getD i 0 < row.length) :
    ∀ t ∈ lines_list, (get_match_list lines_list join_field_list).length ≤ t.length := by
  cases lines_list with
  | nil => exact absurd rfl h0
  | cons t0 ts =>
    cases join_field_list with
    | nil => simp at h2
    | cons f0 fs =>
      intro t ht
      rw [get_match_list_cons]
      have hcount := joinLoopAux_count t0 ts f0 fs t0.length 0 (List.replicate ts.length 0)
      rcases List.mem_cons.mp ht with rfl | hts
      · have := hcount.1
        omega
      · obtain ⟨k, hk, hkt⟩ := List.mem_iff_getElem.mp hts
        have hbound := hcount.2 k hk
        have hrep : (List.replicate ts.length (0 : Nat)).getD k 0 = 0 := by
          rw [List.getD_eq_getElem _ _ (by simpa using hk), List.getElem_replicate]
        rw [hrep, List.getD_eq_getElem _ _ hk, hkt] at hbound
        omega

/-- C3 witness: the scenario A tables satisfy all the hypotheses, and
the single emitted match is indeed at most as long as either table. -/
theorem match_count_le_smallest_witness :
    (([[["NYC","8"],["LA","4"]], [["LA","500"],["NYC","300"]]] :
        List (List (List String))) ≠ []) ∧
      (∀ t ∈ ([[["NYC","8"],["LA","4"]], [["LA","500"],["NYC","300"]]] :
          List (List (List String))), t ≠ []) ∧
      (([0, 0] : List Nat).length
        = ([[["NYC","8"],["LA","4"]], [["LA","500"],["NYC","300"]]] :
            List (List (List String))).length) ∧
      (∀ i, i < ([[["NYC","8"],["LA","4"]], [["LA","500"],["NYC","300"]]] :
            List (List (List String))).length →
          ∀ row ∈ ([[["NYC","8"],["LA","4"]], [["LA","500"],["NYC","300"]]] :
              List (List (List String))).getD i [],
            ([0, 0] : List Nat).getD i 0 < row.length) ∧
      ∀ t ∈ ([[["NYC","8"],["LA","4"]], [["LA","500"],["NYC","300"]]] :
          List (List (List String))),
        (get_match_list [[["NYC","8"],["LA","4"]], [["LA","500"],["NYC","300"]]]
            [0, 0]).length ≤ t.length :=
  ⟨by decide, by decide, by decide, by decide,
    match_count_le_smallest _ _ (by decide) (by decide) (by decide) (by decide)⟩

/-- Every tuple emitted by the matcher loop is a table-0 row index
followed by a successful scan of the later tables from some cursor
state. -/
theorem joinLoopAux_emit (t0 : List (List String)) (ts : List (List (List String)))
    (f0 : Nat) (fs : List Nat) :
    ∀ (fuel i0 : Nat) (cs m : List Nat),
      m ∈ joinLoopAux t0 ts f0 fs fuel i0 cs →
      ∃ a js cs', m = a :: js ∧
        scanTables ts fs cs' ((t0.getD a []).getD f0 "") = some js := by
  intro fuel
  induction fuel with
  | zero => intro i0 cs m hm; simp [joinLoopAux] at hm
  | succ n ih =>
    intro i0 cs m hm
    cases hb : no_finished_list (i0 :: cs) (t0 :: ts) with
    | false => rw [joinLoopAux_stop hb] at hm; simp at hm
    | true =>
      cases hst : scanTables ts fs cs ((t0.getD i0 []).getD f0 "") with
      | none =>
        rw [joinLoopAux_step_none hb hst] at hm
        exact ih (i0 + 1) cs m hm
      | some js =>
        rw [joinLoopAux_step_some hb hst] at hm
        rcases List.mem_cons.mp hm with rfl | hmem
        · exact ⟨i0, js, cs, rfl, hst⟩
        · exact ih (i0 + 1) (js.map (fun j => j + 1)) m hmem

/-- C4: every match tuple emitted by `get_match_list` satisfies textual
equality of the join-column values: for every table index `i`, the cell
at (table `i`, row `m[i]`, join column of `i`) is string-identical to
the cell at (table 0, row `m[0]`, join column of 0). -/
theorem match_cells_textually_equal (lines_list : List (List (List String)))
    (join_field_list : List Nat) (m : List Nat)
    (hm : m ∈ get_match_list lines_list join_field_list) :
    ∀ i, i < lines_list.length →
      joinCell lines_list join_field_list m i
        = joinCell lines_list join_field_list m 0 := by
  cases lines_list with
  | nil => simp [get_match_list] at hm
  | cons t0 ts =>
    cases join_field_list with
    | nil => simp [get_match_list] at hm
    | cons f0 fs =>
      rw [get_match_list_cons] at hm
      obtain ⟨a, js, cs', rfl, hst⟩ := joinLoopAux_emit t0 ts f0 fs _ _ _ _ hm
      have hs := scanTables_some hst
      intro i hi
      cases i with
      | zero => rfl
      | succ k =>
        have hk : k < ts.length := by simpa using hi
        have hcell := (hs.2 k hk).2.2
        unfold joinCell
        simp only [List.getD_cons_succ, List.getD_cons_zero]
        exact hcell

/-- C4 witness: the single match of scenario A references textually
equal join cells in both tables. -/
theorem match_cells_textually_equal_witness :
    ([0, 1] ∈ get_match_list [[["NYC","8"],["LA","4"]], [["LA","500"],["NYC","300"]]]
        [0, 0]) ∧
      ∀ i, i < ([[["NYC","8"],["LA","4"]], [["LA","500"],["NYC","300"]]] :
          List (List (List String))).length →
        joinCell [[["NYC","8"],["LA","4"]], [["LA","500"],["NYC","300"]]] [0, 0] [0, 1] i
          = joinCell [[["NYC","8"],["LA","4"]], [["LA","500"],["NYC","300"]]] [0, 0]
              [0, 1] 0 :=
  ⟨by decide, match_cells_textually_equal _ _ _ (by decide)⟩

/-- Lower bound on emitted tuples: every tuple emitted from cursor
state `(i0, cs)` is coordinatewise at or past that state. -/
theorem joinLoopAux_lower (t0 : List (List String)) (ts : List (List (List String)))
    (f0 : Nat) (fs : List Nat) :
    ∀ (fuel i0 : Nat) (cs m : List Nat), cs.length = ts.length →
      m ∈ joinLoopAux t0 ts f0 fs fuel i0 cs →
      i0 ≤ m.getD 0 0 ∧ ∀ k, k < ts.length → cs.getD k 0 ≤ m.getD (k + 1) 0 := by
  intro fuel
  induction fuel with
  | zero => intro i0 cs m _ hm; simp [joinLoopAux] at hm
  | succ n ih =>
    intro i0 cs m hlen hm
    cases hb : no_finished_list (i0 :: cs) (t0 :: ts) with
    | false => rw [joinLoopAux_stop hb] at hm; simp at hm
    | true =>
      cases hst : scanTables ts fs cs ((t0.getD i0 []).getD f0 "") with
      | none =>
        rw [joinLoopAux_step_none hb hst] at hm
        have h2 := ih (i0 + 1) cs m hlen hm
        exact ⟨by omega, h2.2⟩
      | some js =>
        rw [joinLoopAux_step_some hb hst] at hm
        have hs := scanTables_some hst
        rcases List.mem_cons.mp hm with rfl | hmem
        · refine ⟨by simp, fun k hk => ?_⟩
          simp only [List.getD_cons_succ]
          exact (hs.2 k hk).1
        · have hlen' : (js.map (fun j => j + 1)).length = ts.length := by
            rw [List.length_map, hs.1]
          have h2 := ih (i0 + 1) (js.map (fun j => j + 1)) m hlen' hmem
          refine ⟨by omega, fun k hk => ?_⟩
          have h3 := h2.2 k hk
          have hmap := getD_map_add_one js k (by rw [hs.1]; exact hk)
          have h4 := (hs.2 k hk).1
          omega

/-- Consecutive emitted tuples are strictly increasing in every
coordinate. -/
theorem joinLoopAux_chain (t0 : List (List String)) (ts : List (List (List String)))
    (f0 : Nat) (fs : List Nat) :
    ∀ (fuel i0 : Nat) (cs : List Nat), cs.length = ts.length →
      List.Chain' (fun m m' => ∀ i, i < ts.length + 1 → m.getD i 0 < m'.getD i 0)
        (joinLoopAux t0 ts f0 fs fuel i0 cs) := by
  intro fuel
  induction fuel with
  | zero => intro i0 cs _; simp [joinLoopAux]
  | succ n ih =>
    intro i0 cs hlen
    cases hb : no_finished_list (i0 :: cs) (t0 :: ts) with
    | false => rw [joinLoopAux_stop hb]; simp
    | true =>
      cases hst : scanTables ts fs cs ((t0.getD i0 []).getD f0 "") with
      | none => rw [joinLoopAux_step_none hb hst]; exact ih (i0 + 1) cs hlen
      | some js =>
        rw [joinLoopAux_step_some hb hst]
        have hs := scanTables_some hst
        have hlen' : (js.map (fun j => j + 1)).length = ts.length := by
          rw [List.length_map, hs.1]
        rw [List.chain'_cons']
        refine ⟨fun b hb' => ?_, ih (i0 + 1) (js.map (fun j => j + 1)) hlen'⟩
        have hbmem := List.mem_of_mem_head? hb'
        have hlow := joinLoopAux_lower t0 ts f0 fs n (i0 + 1) _ b hlen' hbmem
        intro i hi
        cases i with
        | zero =>
          simp only [List.getD_cons_zero]
          have := hlow.1
          omega
        | succ k =>
          have hk : k < ts.length := by omega
          simp only [List.getD_cons_succ]
          have h1 := hlow.2 k hk
          have hmap := getD_map_add_one js k (by rw [hs.1]; exact hk)
          omega

/-- C10: in the match list returned by `get_match_list`, the row
indices are strictly increasing per coordinate between consecutive
tuples (hence no row of any table appears in more than one tuple). -/
theorem match_list_strictly_increasing (lines_list : List (List (List String)))
    (join_field_list : List Nat) :
    List.Chain' (fun m m' => ∀ i, i < lines_list.length → m.getD i 0 < m'.getD i 0)
      (get_match_list lines_list join_field_list) := by
  cases lines_list with
  | nil => cases join_field_list <;> simp [get_match_list]
  | cons t0 ts =>
    cases join_field_list with
    | nil => simp [get_match_list]
    | cons f0 fs =>
      rw [get_match_list_cons]
      have h := joinLoopAux_chain t0 ts f0 fs t0.length 0 (List.replicate ts.length 0)
        (List.length_replicate _ _)
      simpa using h

/-- C6 witness: one join token supplied for two input files. -/
theorem join_spec_cardinality_error_witness :
    ([[["NYC","8"]], [["LA","500"]]] : List (List (List String))).length
        ≠ (["0:city"] : List String).length ∧
      main_model [["city","pop"],["city","area"]] [[["NYC","8"]], [["LA","500"]]]
        ["0:city"] ["0:city"] = ([], some PyErr.assertionError) :=
  ⟨by decide,
    join_spec_cardinality_error [["city","pop"],["city","area"]]
      [[["NYC","8"]], [["LA","500"]]] ["0:city"] ["0:city"] (by decide)⟩

/-! ### Tokenizer lemmas -/

/-- The tokenizer accepts the empty input at any fuel. -/
theorem tokenize_nil (g : Nat) : tokenizeAux g [] = .ok [] := by
  cases g <;> rfl

/-- The tokenizer skips a leading space. -/
theorem tokenize_space (g : Nat) (cs : List Char) :
    tokenizeAux (g + 1) (' ' :: cs) = tokenizeAux g cs := by
  rw [tokenizeAux, if_pos rfl]

/-- The tokenizer emits the token of a leading operator character. -/
theorem tokenize_op {c : Char} {t : Tok} (g : Nat) (cs : List Char)
    (h1 : c ≠ ' ') (h2 : c.isDigit = false) (h3 : charTok c = some t) :
    tokenizeAux (g + 1) (c :: cs)
      = match tokenizeAux g cs with
        | .ok toks => .ok (t :: toks)
        | .error e => .error e := by
  rw [tokenizeAux, if_neg h1, h2, if_neg (by simp), h3]

/-- Splitting a list at the boundary of an all-`p` prefix. -/
theorem takeWhile_append_eq {p : Char → Bool} {d rest : List Char}
    (hd : ∀ c ∈ d, p c = true) (hr : ∀ c, rest.head? = some c → p c = false) :
    (d ++ rest).takeWhile p = d ∧ (d ++ rest).dropWhile p = rest := by
  induction d with
  | nil =>
    simp only [List.nil_append]
    cases rest with
    | nil => simp
    | cons r rs =>
      have hp := hr r rfl
      simp [List.takeWhile_cons, List.dropWhile_cons, hp]
  | cons c d ih =>
    have hc := hd c (by simp)
    have hrec := ih (fun x hx => hd x (by simp [hx]))
    simp [List.takeWhile_cons, List.dropWhile_cons, hc, hrec.1, hrec.2]

/-- One unfolding of the tokenizer at a digit character. -/
theorem tokenize_digit_step {g : Nat} {c0 : Char} {cs : List Char}
    (hns : ¬ c0 = ' ') (hc0 : c0.isDigit = true) :
    tokenizeAux (g + 1) (c0 :: cs)
      = if ((c0 :: cs).dropWhile Char.isDigit).head? = some '.' then
          match tokenizeAux g (((c0 :: cs).dropWhile Char.isDigit).tail.dropWhile Char.isDigit) with
          | .ok toks =>
            .ok (.num (litVal ((c0 :: cs).takeWhile Char.isDigit)
              (((c0 :: cs).dropWhile Char.isDigit).tail.takeWhile Char.isDigit)) :: toks)
          | .error e => .error e
        else
          match tokenizeAux g ((c0 :: cs).dropWhile Char.isDigit) with
          | .ok toks =>
            .ok (.num ((digitsToNat ((c0 :: cs).takeWhile Char.isDigit) : ℚ)) :: toks)
          | .error e => .error e := by
  rw [tokenizeAux, if_neg hns, hc0, if_pos rfl]

/-- The tokenizer consumes a leading numeric literal in one step,
emitting its value, provided the following text does not continue the
literal (it does not start with a digit or decimal point). -/
theorem tokenize_lit_step {g : Nat} {lit rest : List Char} {q : ℚ}
    (hl : IsNumLit lit q)
    (hrest : ∀ c, rest.head? = some c → (c.isDigit = false ∧ c ≠ '.')) :
    tokenizeAux (g + 1) (lit ++ rest)
      = match tokenizeAux g rest with
        | .ok toks => .ok (Tok.num q :: toks)
        | .error e => .error e := by
  cases hl with
  | int d hne hd =>
    have hspan := takeWhile_append_eq hd (fun c hc => (hrest c hc).1)
    obtain ⟨c0, d', rfl⟩ : ∃ c0 d', lit = c0 :: d' := by
      cases lit with
      | nil => exact absurd rfl hne
      | cons a l => exact ⟨a, l, rfl⟩
    have hc0 : c0.isDigit = true := hd c0 (by simp)
    have hns : ¬ (c0 = ' ') := fun h => by rw [h] at hc0; simp at hc0
    show tokenizeAux (g + 1) (c0 :: (d' ++ rest)) = _
    rw [tokenize_digit_step hns hc0]
    have hdw : (c0 :: (d' ++ rest)).dropWhile Char.isDigit = rest := hspan.2
    have htw : (c0 :: (d' ++ rest)).takeWhile Char.isDigit = c0 :: d' := hspan.1
    rw [hdw, htw]
    have hdot : rest.head? ≠ some '.' := by
      intro hh
      cases rest with
      | nil => simp at hh
      | cons r rs =>
        simp at hh
        exact (hrest r rfl).2 hh
    rw [if_neg hdot]
  | dec d f hne hd hf =>
    have hspan1 := @takeWhile_append_eq Char.isDigit d ('.' :: (f ++ rest)) hd
      (fun c hc => by
        simp at hc
        subst hc
        decide)
    have hspan2 := takeWhile_append_eq hf (fun c hc => (hrest c hc).1)
    obtain ⟨c0, d', rfl⟩ : ∃ c0 d', d = c0 :: d' := by
      cases d with
      | nil => exact absurd rfl hne
      | cons a l => exact ⟨a, l, rfl⟩
    have hc0 : c0.isDigit = true := hd c0 (by simp)
    have hns : ¬ (c0 = ' ') := fun h => by rw [h] at hc0; simp at hc0
    have hshape : ((c0 :: d') ++ '.' :: f) ++ rest = c0 :: (d' ++ '.' :: (f ++ rest)) := by
      simp
    rw [hshape, tokenize_digit_step hns hc0]
    have hdw1 : (c0 :: (d' ++ '.' :: (f ++ rest))).dropWhile Char.isDigit
        = '.' :: (f ++ rest) := hspan1.2
    have htw1 : (c0 :: (d' ++ '.' :: (f ++ rest))).takeWhile Char.isDigit
        = c0 :: d' := hspan1.1
    rw [hdw1, htw1,
      if_pos (show ('.' :: (f ++ rest)).head? = some '.' by rfl),
      List.tail_cons, hspan2.1, hspan2.2]

/-- Tokenizing `lit op lit` (with spaces) yields exactly three tokens. -/
theorem tokenize_lit_op_lit {m : Nat} {la lb : List Char} {qa qb : ℚ} {op : Char} {t : Tok}
    (ha : IsNumLit la qa) (hb : IsNumLit lb qb)
    (hop : charTok op = some t) (h1 : op ≠ ' ') (h2 : op.isDigit = false) :
    tokenizeAux (m + 5) (la ++ ' ' :: op :: ' ' :: lb)
      = .ok [Tok.num qa, t, Tok.num qb] := by
  have hsp : ∀ c : Char, (' ' :: op :: ' ' :: lb).head? = some c →
      (c.isDigit = false ∧ c ≠ '.') := by
    intro c hc
    simp at hc
    subst hc
    exact ⟨by decide, by decide⟩
  have s1 : tokenizeAux (m + 5) (la ++ ' ' :: op :: ' ' :: lb)
      = match tokenizeAux (m + 4) (' ' :: op :: ' ' :: lb) with
        | .ok toks => .ok (Tok.num qa :: toks)
        | .error e => .error e :=
    @tokenize_lit_step (m + 4) la (' ' :: op :: ' ' :: lb) qa ha hsp
  rw [s1]
  have s2 : tokenizeAux (m + 4) (' ' :: op :: ' ' :: lb)
      = tokenizeAux (m + 3) (op :: ' ' :: lb) := tokenize_space (m + 3) _
  rw [s2]
  have s3 : tokenizeAux (m + 3) (op :: ' ' :: lb)
      = match tokenizeAux (m + 2) (' ' :: lb) with
        | .ok toks => .ok (t :: toks)
        | .error e => .error e := tokenize_op (m + 2) _ h1 h2 hop
  rw [s3]
  have s4 : tokenizeAux (m + 2) (' ' :: lb) = tokenizeAux (m + 1) lb :=
    tokenize_space (m + 1) _
  rw [s4]
  have s5 : tokenizeAux (m + 1) lb
      = match tokenizeAux m ([] : List Char) with
        | .ok toks => .ok (Tok.num qb :: toks)
        | .error e => .error e := by
    have h := @tokenize_lit_step m lb [] qb hb (fun c hc => by simp at hc)
    rw [List.append_nil] at h
    exact h
  rw [s5, tokenize_nil]

/-- A character rejected at token starts survives every consumption
step of the tokenizer: membership is preserved by `dropWhile isDigit`. -/
theorem mem_dropWhile_of_not_digit {c : Char} {l : List Char}
    (hmem : c ∈ l) (hc : c.isDigit = false) : c ∈ l.dropWhile Char.isDigit := by
  induction l with
  | nil => simp at hmem
  | cons a l ih =>
    by_cases ha : a.isDigit = true
    · rcases List.mem_cons.mp hmem with rfl | hl
      · rw [ha] at hc; cases hc
      · rw [List.dropWhile_cons, if_pos ha]
        exact ih hl
    · rw [List.dropWhile_cons, if_neg ha]
      exact hmem

/-- A `badChar` anywhere in the input makes the tokenizer fail with
the evaluation error (at any fuel, since running out of fuel gives the
same error). -/
theorem tokenize_badchar : ∀ (g : Nat) (cs : List Char),
    (∃ c ∈ cs, badChar c = true) → tokenizeAux g cs = .error .evalError := by
  intro g
  induction g with
  | zero =>
    intro cs hc
    obtain ⟨c, hmem, _⟩ := hc
    cases cs with
    | nil => simp at hmem
    | cons a l => rfl
  | succ n ih =>
    intro cs hc
    obtain ⟨c, hmem, hbad⟩ := hc
    have hprops : c.isDigit = false ∧ c ≠ ' ' ∧ c ≠ '.' ∧ charTok c = none := by
      simp only [badChar, Bool.and_eq_true, Bool.not_eq_true', beq_iff_eq,
        Option.isNone_iff_eq_none, decide_eq_false_iff_not] at hbad
      exact ⟨hbad.1.1.1, by simpa using hbad.1.1.2, by simpa using hbad.1.2, hbad.2⟩
    obtain ⟨hdig, hsp, hdot, hct⟩ := hprops
    cases cs with
    | nil => simp at hmem
    | cons a l =>
      rw [tokenizeAux]
      by_cases ha : a = ' '
      · rw [if_pos ha]
        apply ih
        rcases List.mem_cons.mp hmem with rfl | hl
        · exact absurd ha hsp
        · exact ⟨c, hl, hbad⟩
      · rw [if_neg ha]
        by_cases hda : a.isDigit = true
        · rw [hda, if_pos rfl]
          have hdrop : c ∈ (a :: l).dropWhile Char.isDigit := by
            apply mem_dropWhile_of_not_digit hmem hdig
          by_cases hdotc : ((a :: l).dropWhile Char.isDigit).head? = some '.'
          · rw [if_pos hdotc]
            have htail : c ∈ ((a :: l).dropWhile Char.isDigit).tail := by
              cases hrest : (a :: l).dropWhile Char.isDigit with
              | nil => rw [hrest] at hdrop; simp at hdrop
              | cons r rs =>
                rw [hrest] at hdotc hdrop
                simp at hdotc
                rcases List.mem_cons.mp hdrop with rfl | hrs
                · exact absurd hdotc hdot
                · simpa using hrs
            have hdrop2 := mem_dropWhile_of_not_digit htail hdig
            rw [ih _ ⟨c, hdrop2, hbad⟩]
          · rw [if_neg hdotc]
            rw [ih _ ⟨c, hdrop, hbad⟩]
        · have hda' : a.isDigit = false := by simpa using hda
          rw [hda', if_neg (by simp)]
          cases hcta : charTok a with
          | none => rfl
          | some tk =>
            have hcl : c ∈ l := by
              rcases List.mem_cons.mp hmem with rfl | hl
              · rw [hct] at hcta; cases hcta
              · exact hl
            rw [ih _ ⟨c, hcl, hbad⟩]

/-! ### Parser and `evalArith` lemmas -/

/-- A numeric literal is nonempty. -/
theorem IsNumLit.length_pos {lit : List Char} {q : ℚ} (h : IsNumLit lit q) :
    1 ≤ lit.length := by
  cases h with
  | int d hne hd => exact List.length_pos.mpr hne
  | dec d f hne hd hf =>
    simp [List.length_append]
    omega

/-- Atom step: a numeric token. -/
theorem parseAtom_num (g : Nat) (q : ℚ) (rest : List Tok) :
    parseAtom (g + 1) (.num q :: rest) = .ok (q, rest) := rfl

/-- Term-loop step: stop at end of input. -/
theorem parseTermLoop_nil (g : Nat) (acc : ℚ) :
    parseTermLoop (g + 1) acc [] = .ok (acc, []) := rfl

/-- Term-loop step: stop at a `+` token. -/
theorem parseTermLoop_plus (g : Nat) (acc : ℚ) (rest : List Tok) :
    parseTermLoop (g + 1) acc (.plus :: rest) = .ok (acc, .plus :: rest) := rfl

/-- Term-loop step: a division by a numeric token. -/
theorem parseTermLoop_slash_num (g : Nat) (acc q : ℚ) (rest : List Tok) :
    parseTermLoop (g + 2) acc (.slash :: .num q :: rest)
      = if q = 0 then .error .evalError else parseTermLoop (g + 1) (acc / q) rest := rfl

/-- One unfolding of `parseTerm`. -/
theorem parseTerm_eq (g : Nat) (ts : List Tok) :
    parseTerm (g + 1) ts
      = match parseAtom g ts with
        | .ok (v, rest) => parseTermLoop g v rest
        | .error e => .error e := rfl

/-- One unfolding of `parseExpr`. -/
theorem parseExpr_eq (g : Nat) (ts : List Tok) :
    parseExpr (g + 1) ts
      = match parseTerm g ts with
        | .ok (v, rest) => parseExprLoop g v rest
        | .error e => .error e := rfl

/-- Expression-loop step: stop at end of input. -/
theorem parseExprLoop_nil (g : Nat) (acc : ℚ) :
    parseExprLoop (g + 1) acc [] = .ok (acc, []) := rfl

/-- Parsing `num + num` yields the sum. -/
theorem parseExpr_num_plus_num (m : Nat) (q1 q2 : ℚ) :
    parseExpr (m + 5) [Tok.num q1, Tok.plus, Tok.num q2] = .ok (q1 + q2, []) := rfl

/-- Parsing `num / num` yields the exact quotient when the divisor is
nonzero. -/
theorem parseExpr_num_div_num (m : Nat) (q1 q2 : ℚ) (h : q2 ≠ 0) :
    parseExpr (m + 5) [Tok.num q1, Tok.slash, Tok.num q2] = .ok (q1 / q2, []) := by
  have hterm : parseTerm (m + 4) [Tok.num q1, Tok.slash, Tok.num q2]
      = if q2 = 0 then .error .evalError else parseTermLoop (m + 2) (q1 / q2) [] := rfl
  have hterm2 : parseTerm (m + 4) [Tok.num q1, Tok.slash, Tok.num q2]
      = parseTermLoop (m + 2) (q1 / q2) [] := by rw [hterm, if_neg h]
  have hloop : parseTermLoop (m + 2) (q1 / q2) [] = .ok (q1 / q2, []) :=
    parseTermLoop_nil (m + 1) _
  have e1 : parseExpr (m + 5) [Tok.num q1, Tok.slash, Tok.num q2]
      = match parseTerm (m + 4) [Tok.num q1, Tok.slash, Tok.num q2] with
        | .ok (v, rest) => parseExprLoop (m + 4) v rest
        | .error e => .error e := parseExpr_eq (m + 4) _
  rw [e1, hterm2, hloop]
  exact parseExprLoop_nil (m + 3) _

/-- `evalArith` after a successful tokenization. -/
theorem evalArith_eq_of_tokens {s : String} {ts : List Tok}
    (h : tokenizeAux s.data.length s.data = .ok ts) :
    evalArith s
      = match parseExpr (4 * ts.length + 4) ts with
        | .error e => .error e
        | .ok (v, rest) =>
          match rest with
          | [] => .ok v
          | _ :: _ => .error .evalError := by
  unfold evalArith
  rw [h]

/-- `evalArith` after a failed tokenization. -/
theorem evalArith_err_of_tokens {s : String} {e : PyErr}
    (h : tokenizeAux s.data.length s.data = .error e) :
    evalArith s = .error e := by
  unfold evalArith
  rw [h]

/-- Evaluation of `lit + lit` (with spaces): the sum of the values. -/
theorem evalArith_add {la lb : List Char} {qa qb : ℚ}
    (ha : IsNumLit la qa) (hb : IsNumLit lb qb) :
    evalArith (String.mk (la ++ ' ' :: '+' :: ' ' :: lb)) = .ok (qa + qb) := by
  obtain ⟨m, hm⟩ : ∃ m, (la ++ ' ' :: '+' :: ' ' :: lb).length = m + 5 := by
    refine ⟨la.length + lb.length - 2, ?_⟩
    have h1 := ha.length_pos
    have h2 := hb.length_pos
    simp [List.length_append]
    omega
  have htok : tokenizeAux (String.mk (la ++ ' ' :: '+' :: ' ' :: lb)).data.length
      (String.mk (la ++ ' ' :: '+' :: ' ' :: lb)).data
      = .ok [Tok.num qa, Tok.plus, Tok.num qb] := by
    show tokenizeAux (la ++ ' ' :: '+' :: ' ' :: lb).length
      (la ++ ' ' :: '+' :: ' ' :: lb) = _
    rw [hm]
    exact tokenize_lit_op_lit ha hb (by decide) (by decide) (by decide)
  rw [evalArith_eq_of_tokens htok]
  have hp : parseExpr (4 * ([Tok.num qa, Tok.plus, Tok.num qb] : List Tok).length + 4)
      [Tok.num qa, Tok.plus, Tok.num qb] = .ok (qa + qb, []) :=
    parseExpr_num_plus_num 11 qa qb
  rw [hp]

/-- Evaluation of `lit / lit` (with spaces): the exact rational
quotient of the values (true division, no truncation). -/
theorem evalArith_div {la lb : List Char} {qa qb : ℚ}
    (ha : IsNumLit la qa) (hb : IsNumLit lb qb) (h0 : qb ≠ 0) :
    evalArith (String.mk (la ++ ' ' :: '/' :: ' ' :: lb)) = .ok (qa / qb) := by
  obtain ⟨m, hm⟩ : ∃ m, (la ++ ' ' :: '/' :: ' ' :: lb).length = m + 5 := by
    refine ⟨la.length + lb.length - 2, ?_⟩
    have h1 := ha.length_pos
    have h2 := hb.length_pos
    simp [List.length_append]
    omega
  have htok : tokenizeAux (String.mk (la ++ ' ' :: '/' :: ' ' :: lb)).data.length
      (String.mk (la ++ ' ' :: '/' :: ' ' :: lb)).data
      = .ok [Tok.num qa, Tok.slash, Tok.num qb] := by
    show tokenizeAux (la ++ ' ' :: '/' :: ' ' :: lb).length
      (la ++ ' ' :: '/' :: ' ' :: lb) = _
    rw [hm]
    exact tokenize_lit_op_lit ha hb (by decide) (by decide) (by decide)
  rw [evalArith_eq_of_tokens htok]
  have hp : parseExpr (4 * ([Tok.num qa, Tok.slash, Tok.num qb] : List Tok).length + 4)
      [Tok.num qa, Tok.slash, Tok.num qb] = .ok (qa / qb, []) :=
    parseExpr_num_div_num 11 qa qb h0
  rw [hp]

/-- Evaluation fails with the evaluation error whenever the text
contains a character the arithmetic grammar rejects. -/
theorem evalArith_bad {cs : List Char}
    (h : ∃ c ∈ cs, badChar c = true) :
    evalArith (String.mk cs) = .error PyErr.evalError := by
  exact evalArith_err_of_tokens (tokenize_badchar _ _ h)

/-! ### `Expression.run` on formulas: claims C7, C8, C9 -/

/-- Substitution into a two-slot template `slot op slot` (with spaces),
for any operator character distinct from the opening brace. -/
theorem formatTemplate_two {op : Char} (hop : ¬ op = lbrace) (v1 v2 : String) :
    formatTemplate [lbrace, rbrace, ' ', op, ' ', lbrace, rbrace] [v1, v2]
      = v1.data ++ ' ' :: op :: ' ' :: v2.data := by
  rw [formatTemplate, if_pos ⟨rfl, rfl⟩,
    formatTemplate, if_neg (fun h => absurd h.1 (by decide)),
    formatTemplate, if_neg (fun h => hop h.1),
    formatTemplate, if_neg (fun h => absurd h.1 (by decide)),
    formatTemplate, if_pos ⟨rfl, rfl⟩,
    formatTemplate]
  simp

/-- C8: division in formula expressions follows true (non-truncating)
division semantics: on numeric cells, the compiled formula `0:a / 1:b`
evaluates to the exact rational quotient of the substituted operands,
converted to its string form. -/
theorem expr_division_true_semantics (sa sb : String) (qa qb : ℚ) (es : Expression)
    (ha : IsNumLit sa.data qa) (hb : IsNumLit sb.data qb) (h0 : qb ≠ 0)
    (hc : Expression.compile "0:a / 1:b" [["a"], ["b"]] = .ok es) :
    es.run [[sa], [sb]] = .ok (ratToString (qa / qb)) := by
  have hcv : Expression.compile "0:a / 1:b" [["a"], ["b"]]
      = .ok (Expression.formula
          (String.mk [lbrace, rbrace, ' ', '/', ' ', lbrace, rbrace]) [(0, 0), (1, 0)]) := by
    decide
  rw [hcv] at hc
  injection hc with hc2
  subst hc2
  have hrun : (Expression.formula
      (String.mk [lbrace, rbrace, ' ', '/', ' ', lbrace, rbrace]) [(0, 0), (1, 0)]).run
        [[sa], [sb]]
      = match evalArith (String.mk (formatTemplate
          [lbrace, rbrace, ' ', '/', ' ', lbrace, rbrace] [sa, sb])) with
        | .ok q => .ok (ratToString q)
        | .error e => .error e := rfl
  rw [hrun, formatTemplate_two (by decide) sa sb, evalArith_div ha hb h0]

/-- C8 witness: `8 / 2` evaluated through the compiled expression. -/
theorem expr_division_true_semantics_witness :
    IsNumLit ("8" : String).data (8 : ℚ) ∧ IsNumLit ("2" : String).data (2 : ℚ) ∧
      ((2 : ℚ) ≠ 0) ∧
      (Expression.compile "0:a / 1:b" [["a"], ["b"]]
        = .ok (Expression.formula "\x7b\x7d / \x7b\x7d" [(0, 0), (1, 0)])) ∧
      (Expression.formula "\x7b\x7d / \x7b\x7d" [(0, 0), (1, 0)]).run [["8"], ["2"]]
        = .ok (ratToString ((8 : ℚ) / 2)) := by
  have h8 : IsNumLit ("8" : String).data (8 : ℚ) := by
    have he : ((digitsToNat ("8" : String).data : ℚ)) = (8 : ℚ) := by
      norm_num [show digitsToNat ("8" : String).data = 8 from rfl]
    exact he ▸ IsNumLit.int ("8" : String).data (by decide) (by decide)
  have h2 : IsNumLit ("2" : String).data (2 : ℚ) := by
    have he : ((digitsToNat ("2" : String).data : ℚ)) = (2 : ℚ) := by
      norm_num [show digitsToNat ("2" : String).data = 2 from rfl]
    exact he ▸ IsNumLit.int ("2" : String).data (by decide) (by decide)
  exact ⟨h8, h2, by norm_num, by decide,
    expr_division_true_semantics "8" "2" 8 2 _ h8 h2 (by norm_num) (by decide)⟩

/-- C9: on numeric cells, the compiled formulas `0:a + 1:b` and
`1:b + 0:a` evaluate to the same result, namely the string form of the
sum of the substituted cell values (addition is commutative). -/
theorem formula_addition_commutes (sa sb : String) (qa qb : ℚ) (e1 e2 : Expression)
    (ha : IsNumLit sa.data qa) (hb : IsNumLit sb.data qb)
    (h1 : Expression.compile "0:a + 1:b" [["a"], ["b"]] = .ok e1)
    (h2 : Expression.compile "1:b + 0:a" [["a"], ["b"]] = .ok e2) :
    e1.run [[sa], [sb]] = e2.run [[sa], [sb]] ∧
      e1.run [[sa], [sb]] = .ok (ratToString (qa + qb)) := by
  have hcv1 : Expression.compile "0:a + 1:b" [["a"], ["b"]]
      = .ok (Expression.formula
          (String.mk [lbrace, rbrace, ' ', '+', ' ', lbrace, rbrace]) [(0, 0), (1, 0)]) := by
    decide
  have hcv2 : Expression.compile "1:b + 0:a" [["a"], ["b"]]
      = .ok (Expression.formula
          (String.mk [lbrace, rbrace, ' ', '+', ' ', lbrace, rbrace]) [(1, 0), (0, 0)]) := by
    decide
  rw [hcv1] at h1
  injection h1 with h1e
  subst h1e
  rw [hcv2] at h2
  injection h2 with h2e
  subst h2e
  have hr1 : (Expression.formula
      (String.mk [lbrace, rbrace, ' ', '+', ' ', lbrace, rbrace]) [(0, 0), (1, 0)]).run
        [[sa], [sb]]
      = match evalArith (String.mk (formatTemplate
          [lbrace, rbrace, ' ', '+', ' ', lbrace, rbrace] [sa, sb])) with
        | .ok q => .ok (ratToString q)
        | .error e => .error e := rfl
  have hr2 : (Expression.formula
      (String.mk [lbrace, rbrace, ' ', '+', ' ', lbrace, rbrace]) [(1, 0), (0, 0)]).run
        [[sa], [sb]]
      = match evalArith (String.mk (formatTemplate
          [lbrace, rbrace, ' ', '+', ' ', lbrace, rbrace] [sb, sa])) with
        | .ok q => .ok (ratToString q)
        | .error e => .error e := rfl
  have hv1 : (Expression.formula
      (String.mk [lbrace, rbrace, ' ', '+', ' ', lbrace, rbrace]) [(0, 0), (1, 0)]).run
        [[sa], [sb]] = .ok (ratToString (qa + qb)) := by
    rw [hr1, formatTemplate_two (by decide) sa sb, evalArith_add ha hb]
  have hv2 : (Expression.formula
      (String.mk [lbrace, rbrace, ' ', '+', ' ', lbrace, rbrace]) [(1, 0), (0, 0)]).run
        [[sa], [sb]] = .ok (ratToString (qb + qa)) := by
    rw [hr2, formatTemplate_two (by decide) sb sa, evalArith_add hb ha]
  refine ⟨?_, hv1⟩
  rw [hv1, hv2, add_comm qb qa]

/-- C9 witness: `2 + 3` and `3 + 2` through the two compiled formulas. -/
theorem formula_addition_commutes_witness :
    IsNumLit ("2" : String).data (2 : ℚ) ∧ IsNumLit ("3" : String).data (3 : ℚ) ∧
      (Expression.compile "0:a + 1:b" [["a"], ["b"]]
        = .ok (Expression.formula "\x7b\x7d + \x7b\x7d" [(0, 0), (1, 0)])) ∧
      (Expression.compile "1:b + 0:a" [["a"], ["b"]]
        = .ok (Expression.formula "\x7b\x7d + \x7b\x7d" [(1, 0), (0, 0)])) ∧
      (Expression.formula "\x7b\x7d + \x7b\x7d" [(0, 0), (1, 0)]).run [["2"], ["3"]]
          = (Expression.formula "\x7b\x7d + \x7b\x7d" [(1, 0), (0, 0)]).run [["2"], ["3"]] ∧
      (Expression.formula "\x7b\x7d + \x7b\x7d" [(0, 0), (1, 0)]).run [["2"], ["3"]]
          = .ok (ratToString ((2 : ℚ) + 3)) := by
  have h2 : IsNumLit ("2" : String).data (2 : ℚ) := by
    have he : ((digitsToNat ("2" : String).data : ℚ)) = (2 : ℚ) := by
      norm_num [show digitsToNat ("2" : String).data = 2 from rfl]
    exact he ▸ IsNumLit.int ("2" : String).data (by decide) (by decide)
  have h3 : IsNumLit ("3" : String).data (3 : ℚ) := by
    have he : ((digitsToNat ("3" : String).data : ℚ)) = (3 : ℚ) := by
      norm_num [show digitsToNat ("3" : String).data = 3 from rfl]
    exact he ▸ IsNumLit.int ("3" : String).data (by decide) (by decide)
  have h := formula_addition_commutes "2" "3" 2 3
    (Expression.formula "\x7b\x7d + \x7b\x7d" [(0, 0), (1, 0)])
    (Expression.formula "\x7b\x7d + \x7b\x7d" [(1, 0), (0, 0)])
    h2 h3 (by decide) (by decide)
  exact ⟨h2, h3, by decide, by decide, h.1, h.2⟩

/-- C7: a non-numeric cell (one containing a character the arithmetic
grammar rejects, e.g. any letter, as in `"abc"`) substituted into a
formula makes `Expression.run` fail with the evaluation error, and the
output loop emits nothing for that row: the written output is empty
and the run aborts with the error. -/
theorem nonnumeric_formula_eval_error (sprice sqty : String) (es : Expression)
    (hc : Expression.compile "0:price * 1:qty" [["price"], ["qty"]] = .ok es)
    (hbad : ∃ c ∈ sqty.data, badChar c = true) :
    es.run [[sprice], [sqty]] = .error PyErr.evalError ∧
      run_matches [es] [[[sprice]], [[sqty]]] [[0, 0]] = ([], some PyErr.evalError) := by
  have hcv : Expression.compile "0:price * 1:qty" [["price"], ["qty"]]
      = .ok (Expression.formula
          (String.mk [lbrace, rbrace, ' ', '*', ' ', lbrace, rbrace]) [(0, 0), (1, 0)]) := by
    decide
  rw [hcv] at hc
  injection hc with hce
  subst hce
  have hrun : (Expression.formula
      (String.mk [lbrace, rbrace, ' ', '*', ' ', lbrace, rbrace]) [(0, 0), (1, 0)]).run
        [[sprice], [sqty]]
      = match evalArith (String.mk (formatTemplate
          [lbrace, rbrace, ' ', '*', ' ', lbrace, rbrace] [sprice, sqty])) with
        | .ok q => .ok (ratToString q)
        | .error e => .error e := rfl
  obtain ⟨c, hcm, hcb⟩ := hbad
  have hmem : c ∈ sprice.data ++ ' ' :: '*' :: ' ' :: sqty.data := by
    simp [hcm]
  have hx : (Expression.formula
      (String.mk [lbrace, rbrace, ' ', '*', ' ', lbrace, rbrace]) [(0, 0), (1, 0)]).run
        [[sprice], [sqty]] = .error PyErr.evalError := by
    rw [hrun, formatTemplate_two (by decide) sprice sqty, evalArith_bad ⟨c, hmem, hcb⟩]
  refine ⟨hx, ?_⟩
  have hre : runExprs [Expression.formula
      (String.mk [lbrace, rbrace, ' ', '*', ' ', lbrace, rbrace]) [(0, 0), (1, 0)]]
        [[sprice], [sqty]] = .error PyErr.evalError := by
    have hstep : runExprs [Expression.formula
        (String.mk [lbrace, rbrace, ' ', '*', ' ', lbrace, rbrace]) [(0, 0), (1, 0)]]
          [[sprice], [sqty]]
        = match (Expression.formula
            (String.mk [lbrace, rbrace, ' ', '*', ' ', lbrace, rbrace])
              [(0, 0), (1, 0)]).run [[sprice], [sqty]] with
          | .ok s =>
            match runExprs [] [[sprice], [sqty]] with
            | .ok ss => .ok (s :: ss)
            | .error err => .error err
          | .error err => .error err := rfl
    rw [hstep, hx]
  have hstep2 : run_matches [Expression.formula
      (String.mk [lbrace, rbrace, ' ', '*', ' ', lbrace, rbrace]) [(0, 0), (1, 0)]]
        [[[sprice]], [[sqty]]] [[0, 0]]
      = match runExprs [Expression.formula
          (String.mk [lbrace, rbrace, ' ', '*', ' ', lbrace, rbrace]) [(0, 0), (1, 0)]]
            [[sprice], [sqty]] with
        | .ok cols =>
          (joinComma cols :: (run_matches [Expression.formula
            (String.mk [lbrace, rbrace, ' ', '*', ' ', lbrace, rbrace]) [(0, 0), (1, 0)]]
              [[[sprice]], [[sqty]]] ([] : List (List Nat))).1,
            (run_matches [Expression.formula
              (String.mk [lbrace, rbrace, ' ', '*', ' ', lbrace, rbrace]) [(0, 0), (1, 0)]]
                [[[sprice]], [[sqty]]] ([] : List (List Nat))).2)
        | .error e => ([], some e) := rfl
  rw [hstep2, hre]

/-- C7 witness: the cell `"abc"` in the formula `0:price * 1:qty`. -/
theorem nonnumeric_formula_eval_error_witness :
    (Expression.compile "0:price * 1:qty" [["price"], ["qty"]]
      = .ok (Expression.formula "\x7b\x7d * \x7b\x7d" [(0, 0), (1, 0)])) ∧
      (∃ c ∈ ("abc" : String).data, badChar c = true) ∧
      (Expression.formula "\x7b\x7d * \x7b\x7d" [(0, 0), (1, 0)]).run [["7"], ["abc"]]
        = .error PyErr.evalError ∧
      run_matches [Expression.formula "\x7b\x7d * \x7b\x7d" [(0, 0), (1, 0)]]
        [[["7"]], [["abc"]]] [[0, 0]] = ([], some PyErr.evalError) := by
  have h := nonnumeric_formula_eval_error "7" "abc"
    (Expression.formula "\x7b\x7d * \x7b\x7d" [(0, 0), (1, 0)]) (by decide) (by decide)
  exact ⟨by decide, by decide, h.1, h.2⟩
